import Mathlib

/-!
Verification development for the `rlt_windows_sentinel` repository.

The repository runs a fixed batch of shell commands concurrently
(`src/main.py`), each wrapped in a `Command` object
(`src/models/command.py`) that tracks spawn, completion, captured
output, timing and exit status, decodes the raw output bytes into a
log-friendly string (`bytes_to_string`) and writes one log record per
completed command (`write_log`).

Modelling conventions:
* Python `bytes` are `List Nat` (byte values), Python `str` is `List Char`.
* `datetime` timestamps are modelled as rationals (seconds); `datetime`
  subtraction plus `total_seconds` is exact rational subtraction.
* A Python attribute access or call that may raise is modelled as
  `Except PyErr α`; `Except.error` is a raised exception.
* `Command._process` is `Option ProcState`: `none` before spawn
  (`hasattr` fails on `None`), `some p` afterwards, with
  `p.returncode = none` while the process is still running.
* The event-loop behaviour of `asyncio.gather` /`asyncio.run` in
  `main.run` is embedded as a small-step executor over explicit
  schedules (see `stepEv` below), following the documented semantics:
  with `return_exceptions=False` the first raised exception is
  propagated to the awaiter of `gather` immediately; sibling tasks are
  not cancelled by `gather` itself; once `asyncio.run` sees the
  exception it tears the loop down and still-pending tasks never run
  further.
-/

/-- Python exception kinds that the modelled code can raise. -/
inductive PyErr where
  | typeError
  | spawnError
deriving DecidableEq, Repr

/-- Log severity channels used by `write_log`. -/
inductive LogLevel where
  | info
  | error
deriving DecidableEq, Repr

/-- The backslash character, written via its code point. -/
def bsl : Char := Char.ofNat 92

/-- The carriage-return character. -/
def crChar : Char := Char.ofNat 13

/-- The single-quote character. -/
def squote : Char := Char.ofNat 39

/-- The double-quote character. -/
def dquote : Char := Char.ofNat 34

/-- Lower-case hexadecimal digit, as used by Python `repr` escapes. -/
def hexDigitChar (n : Nat) : Char :=
  match n with
  | 0 => '0' | 1 => '1' | 2 => '2' | 3 => '3' | 4 => '4'
  | 5 => '5' | 6 => '6' | 7 => '7' | 8 => '8' | 9 => '9'
  | 10 => 'a' | 11 => 'b' | 12 => 'c' | 13 => 'd' | 14 => 'e' | _ => 'f'

/-- How CPython `bytes.__repr__` renders one byte, given the code `q` of
the chosen quote delimiter: the quote and the backslash are
backslash-escaped, tab, line feed and carriage return become the
two-character escapes, other bytes outside printable ASCII become
`\xNN`, and printable bytes are passed through. -/
def escapeByte (q : Nat) (b : Nat) : List Char :=
  if b = q ∨ b = 92 then [bsl, Char.ofNat b]
  else if b = 9 then [bsl, 't']
  else if b = 10 then [bsl, 'n']
  else if b = 13 then [bsl, 'r']
  else if b < 32 ∨ 127 ≤ b then [bsl, 'x', hexDigitChar (b / 16), hexDigitChar (b % 16)]
  else [Char.ofNat b]

/-- CPython `bytes.__repr__` quote selection: a single quote is used
unless the bytes contain a single quote and no double quote, in which
case the repr is double-quoted. Returns the code of the delimiter. -/
def quoteByte (bs : List Nat) : Nat :=
  if 39 ∈ bs ∧ ¬ 34 ∈ bs then 34 else 39

/-- The body of `str(bytes_value)` between the quotes, i.e. the repr of
the byte list with delimiter code `q`, minus the leading `b`, the
opening quote and the closing quote (the `[2:-1]` slice in the source). -/
def pyContent (q : Nat) (bs : List Nat) : List Char :=
  (bs.map (escapeByte q)).flatten

/-- Does `pat` occur at the head of `s`? (Mirrors the prefix test of
CPython `str.replace` at one scan position.) -/
def leadMatch : List Char → List Char → Bool
  | [], _ => true
  | _ :: _, [] => false
  | p :: ps, c :: cs => p == c && leadMatch ps cs

/-- Fuelled left-to-right non-overlapping replacement, the semantics of
CPython `str.replace`. The pattern is `p :: ps` (always non-empty in
this development); `rep` is the replacement. Fuel `≥ s.length` makes
the fuel irrelevant. -/
def pyRepF (p : Char) (ps rep : List Char) : Nat → List Char → List Char
  | 0, s => s
  | _ + 1, [] => []
  | n + 1, c :: rest =>
    if p = c ∧ leadMatch ps rest = true then
      rep ++ pyRepF p ps rep n (rest.drop ps.length)
    else
      c :: pyRepF p ps rep n rest

/-- CPython `str.replace` with pattern `p :: ps` and replacement `rep`. -/
def pyReplace (p : Char) (ps rep s : List Char) : List Char :=
  pyRepF p ps rep s.length s

/-- Embedding of `bytes_to_string` (src/models/command.py, lines
127-141): strip null bytes, take `str(...)` of the bytes object (its
repr) minus `b` and the two quote delimiters, remove raw carriage
returns, remove the two-character escape backslash-r, and turn the
two-character escape backslash-n into one space. -/
def bytes_to_string (bs : List Nat) : List Char :=
  let stripped := bs.filter (fun b => b != 0)
  let q := quoteByte stripped
  pyReplace bsl ['n'] [' ']
    (pyReplace bsl ['r'] []
      (pyReplace crChar [] [] (pyContent q stripped)))

/-- The same three replacement passes applied to the repr content of a
single line-feed-free segment, with a fixed quote-delimiter code `q`.
Used to state how `bytes_to_string` treats line endings. -/
def decodeSegment (q : Nat) (seg : List Nat) : List Char :=
  pyReplace bsl ['n'] [' ']
    (pyReplace bsl ['r'] []
      (pyReplace crChar [] [] (pyContent q (seg.filter (fun b => b != 0)))))

/-- Join a list of lists with a separator between consecutive elements. -/
def interc {α : Type} (sep : List α) : List (List α) → List α
  | [] => []
  | [a] => a
  | a :: b :: t => a ++ sep ++ interc sep (b :: t)

/-- State of a spawned OS process handle as exposed by
`asyncio.subprocess.Process`: the `pid` attribute is set at spawn, the
`returncode` attribute is `None` (`none`) until the process exits. -/
structure ProcState where
  pid : Nat
  returncode : Option Int
deriving DecidableEq, Repr

/-- Embedding of the `Command` object (src/models/command.py). The
stream-target constructor arguments are fixed to their `None` defaults,
the only configuration `main.py` uses, so both streams are captured. -/
structure Command where
  cmd : List Char
  process : Option ProcState
  stdout : Option (List Char)
  stderr : Option (List Char)
  start_time : Option ℚ
  end_time : Option ℚ
deriving DecidableEq, Repr

/-- `Command.__init__`: only the command text is set. -/
def Command.mk0 (cmd : List Char) : Command :=
  { cmd := cmd, process := none, stdout := none, stderr := none,
    start_time := none, end_time := none }

/-- The `return_code` property: `hasattr(self._process, "returncode")`
is false while `_process` is `None`, so the property returns `None`;
after spawn it returns `Process.returncode`, which is itself `None`
until the process exits. The property never raises. -/
def Command.return_code (c : Command) : Except PyErr (Option Int) :=
  match c.process with
  | none => Except.ok none
  | some p => Except.ok p.returncode

/-- The `pid` property: `None` before spawn, the OS pid afterwards.
Never raises. -/
def Command.pid (c : Command) : Except PyErr (Option Nat) :=
  match c.process with
  | none => Except.ok none
  | some p => Except.ok (some p.pid)

/-- The `time_delta` property: `(end_time - start_time).total_seconds()`
raises `TypeError` when either timestamp is still `None`; otherwise it
returns `(divmod(seconds, 60)[0], seconds)` — the floored minute count
together with the TOTAL seconds of the duration. -/
def Command.time_delta (c : Command) : Except PyErr (ℚ × ℚ) :=
  match c.end_time, c.start_time with
  | some e, some s =>
    let seconds : ℚ := e - s
    Except.ok ((⌊seconds / 60⌋ : ℤ), seconds)
  | some _, none => Except.error PyErr.typeError
  | none, _ => Except.error PyErr.typeError

/-- Left-justify to a minimum width, Python `f"{s:N}"` for strings. -/
def padRight (w : Nat) (s : List Char) : List Char :=
  s ++ List.replicate (w - s.length) ' '

/-- Right-justify to a minimum width, Python `f"{n:N}"` for numbers. -/
def padLeft (w : Nat) (s : List Char) : List Char :=
  List.replicate (w - s.length) ' ' ++ s

/-- Rendering of a natural number, Python `str(n)`. -/
def showNat (n : Nat) : List Char := (toString n).data

/-- Rendering of an integer, Python `str(i)`. -/
def showInt (i : Int) : List Char := (toString i).data

/-- Rendering of a rational; stands in for Python `str` of the
`datetime` / float values whose exact text the code never inspects. -/
def showRat (q : ℚ) : List Char :=
  (toString q.num).data ++ (if q.den = 1 then [] else '/' :: (toString q.den).data)

/-- Rendering of an optional timestamp in an f-string without a format
spec: `None` renders as the four characters `None` and does not raise. -/
def showOptTime : Option ℚ → List Char
  | none => "None".data
  | some t => showRat t

/-- Embedding of `Command.__str__`: with no pid the placeholder line is
returned; otherwise the fields are formatted left to right, and the
first formatting step that fails raises: `f"{None:3}"` raises
`TypeError` when `return_code` is still `None`, and `time_delta` raises
`TypeError` when `end_time` (or `start_time`) is still `None`. -/
def Command.strFmt (c : Command) : Except PyErr (List Char) :=
  match c.process with
  | none => Except.ok (padRight 60 c.cmd ++ " [None] [None]".data)
  | some p =>
    match p.returncode with
    | none => Except.error PyErr.typeError
    | some rc =>
      match c.time_delta with
      | Except.error e => Except.error e
      | Except.ok (m, s) =>
        Except.ok (padRight 60 c.cmd ++ " [".data ++ padLeft 6 (showNat p.pid)
          ++ "] [".data ++ padLeft 3 (showInt rc) ++ "] Start:".data
          ++ showOptTime c.start_time ++ " End:".data ++ showOptTime c.end_time
          ++ " Elapsed:".data ++ padLeft 6 (showRat m) ++ "m ".data
          ++ padLeft 8 (showRat s) ++ "s".data)

/-- Python `f"{value}"` applied to a decoded stream attribute: `None`
renders as `None`, a string renders as itself. -/
def pyStr : Option (List Char) → List Char
  | none => "None".data
  | some s => s

/-- Embedding of `write_log` (src/models/command.py, lines 158-170): a
command with `return_code == 0` is logged on the info channel as its
display line; anything else is logged on the error channel as the
display line followed by the captured stderr text then the stdout
text. -/
def write_log (c : Command) : Except PyErr (LogLevel × List Char) :=
  match c.return_code with
  | Except.error e => Except.error e
  | Except.ok rcv =>
    if rcv = some 0 then
      (c.strFmt).map (fun s => (LogLevel.info, s))
    else
      (c.strFmt).map (fun s => (LogLevel.error, s ++ pyStr c.stderr ++ pyStr c.stdout))

/-- The *Completed* lifecycle state: process spawned and exited, both
timestamps set, both decoded streams populated. -/
def Command.isCompleted (c : Command) : Bool :=
  (match c.process with
   | some p => p.returncode.isSome
   | none => false)
  && c.start_time.isSome && c.end_time.isSome
  && c.stdout.isSome && c.stderr.isSome

/-- Environment behaviour of one command in a batch: whether the OS can
spawn it, and if so the pid, the eventual exit status and the raw bytes
of its two output streams. -/
structure UnitSpec where
  cmd : List Char
  spawnOk : Bool
  pid : Nat
  exitCode : Int
  outB : List Nat
  errB : List Nat
deriving DecidableEq, Repr

/-- Progress of one command coroutine built by `Command.__call__`:
`created` = task scheduled, body not yet run; `started` = `start_time`
set, suspended in `create_subprocess_shell`; `running` = process handle
assigned, suspended in `communicate`; `done` = body returned;
`failed` = `create_subprocess_shell` raised. -/
inductive Phase where
  | created
  | started
  | running
  | done
  | failed
deriving DecidableEq, Repr

/-- One unit of the batch: its coroutine phase plus the `Command`
object it mutates. -/
structure UnitState where
  phase : Phase
  c : Command
deriving DecidableEq, Repr

/-- Status of the `await asyncio.gather(...)` in `main.run`:
still pending, returned normally, or re-raised a child exception. -/
inductive Outcome where
  | pending
  | normal
  | raised
deriving DecidableEq, Repr

/-- Global state of one batch execution. -/
structure BatchState where
  units : List UnitState
  clock : Nat
  outcome : Outcome
  log : List (LogLevel × List Char)
deriving DecidableEq, Repr

/-- Scheduler events, the suspension points of the embedded coroutines:
`start i` runs unit `i` up to its spawn await, `spawn i` resolves the
spawn (handle or exception), `finish i` resolves `communicate` (the
process exited; streams decoded, `end_time` set, `write_log` called),
and `settle` resolves the `gather` await: it re-raises if some child
failed (first exception wins, siblings regardless of state), or
returns normally if every child is done. -/
inductive Ev where
  | start (i : Nat)
  | spawn (i : Nat)
  | finish (i : Nat)
  | settle
deriving DecidableEq, Repr

/-- Replace the element at an index, keep the list otherwise. -/
def setIdx {α : Type} : List α → Nat → α → List α
  | [], _, _ => []
  | _ :: t, 0, a => a :: t
  | h :: t, n + 1, a => h :: setIdx t n a

/-- One scheduler step. Once the batch call has returned (`outcome` is
no longer pending) the loop is being torn down by `asyncio.run` and no
unit makes further progress: still-pending siblings are cancelled. -/
def stepEv (specs : List UnitSpec) (s : BatchState) (e : Ev) : BatchState :=
  if s.outcome ≠ Outcome.pending then s else
  match e with
  | Ev.start i =>
    match s.units.get? i with
    | some u =>
      if u.phase = Phase.created then
        { s with
          units := setIdx s.units i
            { u with phase := Phase.started,
                     c := { u.c with start_time := some ((s.clock : ℚ)) } },
          clock := s.clock + 1 }
      else s
    | none => s
  | Ev.spawn i =>
    match s.units.get? i, specs.get? i with
    | some u, some sp =>
      if u.phase = Phase.started then
        if sp.spawnOk then
          { s with
            units := setIdx s.units i
              { u with phase := Phase.running,
                       c := { u.c with process := some { pid := sp.pid, returncode := none } } },
            clock := s.clock + 1 }
        else
          { s with units := setIdx s.units i { u with phase := Phase.failed },
                   clock := s.clock + 1 }
      else s
    | _, _ => s
  | Ev.finish i =>
    match s.units.get? i, specs.get? i with
    | some u, some sp =>
      match u.phase, u.c.process with
      | Phase.running, some pr =>
        let c' : Command :=
          { u.c with
            process := some { pr with returncode := some sp.exitCode },
            stdout := some (bytes_to_string sp.outB),
            stderr := some (bytes_to_string sp.errB),
            end_time := some ((s.clock : ℚ)) }
        { s with
          units := setIdx s.units i { u with phase := Phase.done, c := c' },
          clock := s.clock + 1,
          log := s.log ++ (match write_log c' with
                           | Except.ok r => [r]
                           | Except.error _ => []) }
      | _, _ => s
    | _, _ => s
  | Ev.settle =>
    if s.units.any (fun u => decide (u.phase = Phase.failed)) then
      { s with outcome := Outcome.raised }
    else if s.units.all (fun u => decide (u.phase = Phase.done)) then
      { s with outcome := Outcome.normal }
    else s

/-- The batch state `main.run` starts from: one `Command` per
specification, all tasks created, `gather` pending. -/
def initBatch (specs : List UnitSpec) : BatchState :=
  { units := specs.map (fun sp => { phase := Phase.created, c := Command.mk0 sp.cmd }),
    clock := 0, outcome := Outcome.pending, log := [] }

/-- Run a batch under an explicit schedule of events. -/
def runBatch (specs : List UnitSpec) (sched : List Ev) : BatchState :=
  sched.foldl (stepEv specs) (initBatch specs)

/-- A unit whose spawn succeeds, exits 0, empty streams. -/
def specOk : UnitSpec :=
  { cmd := ['o', 'k'], spawnOk := true, pid := 5, exitCode := 0, outB := [], errB := [] }

/-- A second successful unit with a different pid and a failing exit. -/
def specOk2 : UnitSpec :=
  { cmd := ['g', 'o'], spawnOk := true, pid := 6, exitCode := 1, outB := [111], errB := [101] }

/-- A unit whose spawn fails (`create_subprocess_shell` raises). -/
def specBad : UnitSpec :=
  { cmd := ['b', 'a', 'd'], spawnOk := false, pid := 0, exitCode := 0, outB := [], errB := [] }


theorem toNat_ofNat_small {b : Nat} (h : b < 55296) : (Char.ofNat b).toNat = b := by
  have hv : b.isValidChar := Or.inl h
  rw [Char.ofNat, dif_pos hv]
  rfl

theorem hexDigitChar_printable (n : Nat) :
    32 ≤ (hexDigitChar n).toNat ∧ (hexDigitChar n).toNat ≤ 126 := by
  unfold hexDigitChar
  split <;> decide

theorem mem_escapeByte {q b : Nat} (hq : q = 34 ∨ q = 39) {a : Char}
    (h : a ∈ escapeByte q b) : 32 ≤ a.toNat ∧ a.toNat ≤ 126 := by
  unfold escapeByte at h
  split at h
  case isTrue hb =>
    rcases hb with hb | hb
    · subst hb
      rcases hq with rfl | rfl <;> simp only [List.mem_cons, List.not_mem_nil, or_false] at h <;>
        rcases h with rfl | rfl <;> decide
    · subst hb
      simp only [List.mem_cons, List.not_mem_nil, or_false] at h
      rcases h with rfl | rfl <;> decide
  case isFalse hb1 =>
    split at h
    case isTrue h9 =>
      simp only [List.mem_cons, List.not_mem_nil, or_false] at h
      rcases h with rfl | rfl <;> decide
    case isFalse h9 =>
      split at h
      case isTrue h10 =>
        simp only [List.mem_cons, List.not_mem_nil, or_false] at h
        rcases h with rfl | rfl <;> decide
      case isFalse h10 =>
        split at h
        case isTrue h13 =>
          simp only [List.mem_cons, List.not_mem_nil, or_false] at h
          rcases h with rfl | rfl <;> decide
        case isFalse h13 =>
          split at h
          case isTrue hrange =>
            simp only [List.mem_cons, List.not_mem_nil, or_false] at h
            rcases h with rfl | rfl | rfl | rfl
            · decide
            · decide
            · exact hexDigitChar_printable _
            · exact hexDigitChar_printable _
          case isFalse hrange =>
            simp only [List.mem_cons, List.not_mem_nil, or_false] at h
            subst h
            have hb : 32 ≤ b ∧ b ≤ 126 := by omega
            rw [toNat_ofNat_small (by omega)]
            exact hb

theorem quoteByte_eq (bs : List Nat) : quoteByte bs = 34 ∨ quoteByte bs = 39 := by
  unfold quoteByte
  split <;> simp

theorem mem_pyContent {q : Nat} (hq : q = 34 ∨ q = 39) {bs : List Nat} {a : Char}
    (h : a ∈ pyContent q bs) : 32 ≤ a.toNat ∧ a.toNat ≤ 126 := by
  unfold pyContent at h
  rw [List.mem_flatten] at h
  obtain ⟨l, hl, hal⟩ := h
  rw [List.mem_map] at hl
  obtain ⟨b, _, rfl⟩ := hl
  exact mem_escapeByte hq hal

theorem mem_pyRepF {p : Char} {ps rep : List Char} :
    ∀ n s a, a ∈ pyRepF p ps rep n s → a ∈ s ∨ a ∈ rep := by
  intro n
  induction n with
  | zero => intro s a h; exact Or.inl h
  | succ n ih =>
    intro s a h
    cases s with
    | nil => simp [pyRepF] at h
    | cons c rest =>
      rw [pyRepF] at h
      split at h
      · rcases List.mem_append.mp h with h | h
        · exact Or.inr h
        · rcases ih _ _ h with h | h
          · exact Or.inl (List.mem_cons_of_mem _ (List.mem_of_mem_drop h))
          · exact Or.inr h
      · rcases List.mem_cons.mp h with rfl | h
        · exact Or.inl (List.mem_cons_self _ _)
        · rcases ih _ _ h with h | h
          · exact Or.inl (List.mem_cons_of_mem _ h)
          · exact Or.inr h

theorem mem_pyReplace {p : Char} {ps rep s : List Char} {a : Char}
    (h : a ∈ pyReplace p ps rep s) : a ∈ s ∨ a ∈ rep :=
  mem_pyRepF _ _ _ h

theorem mem_bytes_to_string {bs : List Nat} {a : Char} (h : a ∈ bytes_to_string bs) :
    32 ≤ a.toNat ∧ a.toNat ≤ 126 := by
  unfold bytes_to_string at h
  rcases mem_pyReplace h with h | h
  · rcases mem_pyReplace h with h | h
    · rcases mem_pyReplace h with h | h
      · exact mem_pyContent (quoteByte_eq _) h
      · simp at h
    · simp at h
  · simp only [List.mem_singleton] at h
    subst h
    decide

theorem pyRepF_fuel {p : Char} {ps rep : List Char} :
    ∀ {n m : Nat} {s : List Char}, s.length ≤ n → s.length ≤ m →
      pyRepF p ps rep n s = pyRepF p ps rep m s := by
  intro n
  induction n with
  | zero =>
    intro m s h1 _
    cases s with
    | nil => cases m <;> rfl
    | cons c rest => simp at h1
  | succ n ih =>
    intro m s h1 h2
    cases s with
    | nil => cases m <;> rfl
    | cons c rest =>
      cases m with
      | zero => simp at h2
      | succ m =>
        rw [pyRepF, pyRepF]
        split

        · have hd : (rest.drop ps.length).length ≤ n := by
            simp only [List.length_drop]
            simp only [List.length_cons] at h1
            omega
          have hd2 : (rest.drop ps.length).length ≤ m := by
            simp only [List.length_drop]
            simp only [List.length_cons] at h2
            omega
          rw [ih hd hd2]
        · have hr : rest.length ≤ n := by simp only [List.length_cons] at h1; omega
          have hr2 : rest.length ≤ m := by simp only [List.length_cons] at h2; omega
          rw [ih hr hr2]

theorem pyReplace_nil {p : Char} {ps rep : List Char} : pyReplace p ps rep [] = [] := rfl

theorem pyReplace_cons_match {p c : Char} {ps rep rest : List Char}
    (h1 : p = c) (h2 : leadMatch ps rest = true) :
    pyReplace p ps rep (c :: rest) = rep ++ pyReplace p ps rep (rest.drop ps.length) := by
  unfold pyReplace
  have : (c :: rest).length = rest.length + 1 := rfl
  rw [this, pyRepF, if_pos ⟨h1, h2⟩]
  congr 1
  exact pyRepF_fuel (by simp only [List.length_drop]; omega) (le_refl _)

theorem pyReplace_cons_nomatch {p c : Char} {ps rep rest : List Char}
    (h : ¬(p = c ∧ leadMatch ps rest = true)) :
    pyReplace p ps rep (c :: rest) = c :: pyReplace p ps rep rest := by
  unfold pyReplace
  have : (c :: rest).length = rest.length + 1 := rfl
  rw [this, pyRepF, if_neg h]

theorem pyReplace_not_mem {p : Char} {ps rep : List Char} :
    ∀ {s : List Char}, p ∉ s → pyReplace p ps rep s = s := by
  intro s
  induction s with
  | nil => intro _; rfl
  | cons c rest ih =>
    intro h
    have hpc : p ≠ c := fun hh => h (hh ▸ List.mem_cons_self _ _)
    rw [pyReplace_cons_nomatch (fun hh => hpc hh.1)]
    rw [ih (fun hh => h (List.mem_cons_of_mem _ hh))]

theorem leadMatch_single_cons {x d : Char} {t : List Char} :
    leadMatch [x] (d :: t) = true ↔ x = d := by
  simp [leadMatch]

theorem repl_split_eq {x : Char} (hx : x ≠ bsl) (rep : List Char) :
    ∀ (u v : List Char),
      pyReplace bsl [x] rep (u ++ bsl :: x :: v)
        = pyReplace bsl [x] rep u ++ rep ++ pyReplace bsl [x] rep v := by
  have base : ∀ v, pyReplace bsl [x] rep (bsl :: x :: v) = rep ++ pyReplace bsl [x] rep v := by
    intro v
    rw [pyReplace_cons_match rfl (leadMatch_single_cons.mpr rfl)]
    simp
  have main : ∀ (n : Nat) (u v : List Char), u.length ≤ n →
      pyReplace bsl [x] rep (u ++ bsl :: x :: v)
        = pyReplace bsl [x] rep u ++ rep ++ pyReplace bsl [x] rep v := by
    intro n
    induction n with
    | zero =>
      intro u v hu
      cases u with
      | nil => simpa [pyReplace_nil] using base v
      | cons c u' => simp at hu
    | succ n ih =>
      intro u v hu
      cases u with
      | nil => simpa [pyReplace_nil] using base v
      | cons c u' =>
        rw [List.cons_append]
        by_cases hc : bsl = c
        · subst hc
          cases u' with
          | nil =>
            have hno : ¬(bsl = bsl ∧ leadMatch [x] (bsl :: x :: v) = true) :=
              fun hh => hx (leadMatch_single_cons.mp hh.2)
            rw [List.nil_append, pyReplace_cons_nomatch hno, base v]
            have hone : pyReplace bsl [x] rep [bsl] = [bsl] := by
              rw [pyReplace_cons_nomatch (by simp [leadMatch]), pyReplace_nil]
            rw [hone]
            simp
          | cons d u'' =>
            by_cases hd : x = d
            · subst hd
              rw [List.cons_append,
                pyReplace_cons_match rfl (leadMatch_single_cons.mpr rfl)]
              have hdrop : ((x :: (u'' ++ bsl :: x :: v)).drop ([x] : List Char).length)
                  = u'' ++ bsl :: x :: v := by simp
              rw [hdrop, ih u'' v (by simp only [List.length_cons] at hu ⊢; omega),
                pyReplace_cons_match rfl (leadMatch_single_cons.mpr rfl)]
              have hdrop2 : ((x :: u'').drop ([x] : List Char).length) = u'' := by simp
              rw [hdrop2]
              simp
            · have hno : ∀ t : List Char,
                  ¬(bsl = bsl ∧ leadMatch [x] (d :: t) = true) :=
                fun t hh => hd (leadMatch_single_cons.mp hh.2)
              rw [List.cons_append, pyReplace_cons_nomatch (hno _),
                ← List.cons_append,
                ih (d :: u'') v (by simp only [List.length_cons] at hu ⊢; omega),
                pyReplace_cons_nomatch (hno u'')]
              simp
        · rw [pyReplace_cons_nomatch (fun hh => hc hh.1),
            ih u' v (by simp only [List.length_cons] at hu; omega),
            pyReplace_cons_nomatch (fun hh => hc hh.1)]
          simp
  exact fun u v => main u.length u v (le_refl _)

theorem repl_split_keep {x y : Char} (hxy : x ≠ y) (hyb : y ≠ bsl) (hx : x ≠ bsl)
    (rep : List Char) :
    ∀ (u v : List Char),
      pyReplace bsl [x] rep (u ++ bsl :: y :: v)
        = pyReplace bsl [x] rep u ++ bsl :: y :: pyReplace bsl [x] rep v := by
  have base : ∀ v, pyReplace bsl [x] rep (bsl :: y :: v)
      = bsl :: y :: pyReplace bsl [x] rep v := by
    intro v
    have h1 : ¬(bsl = bsl ∧ leadMatch [x] (y :: v) = true) :=
      fun hh => hxy (leadMatch_single_cons.mp hh.2)
    have h2 : ¬(bsl = y ∧ leadMatch [x] v = true) := fun hh => hyb hh.1.symm
    rw [pyReplace_cons_nomatch h1, pyReplace_cons_nomatch h2]
  have main : ∀ (n : Nat) (u v : List Char), u.length ≤ n →
      pyReplace bsl [x] rep (u ++ bsl :: y :: v)
        = pyReplace bsl [x] rep u ++ bsl :: y :: pyReplace bsl [x] rep v := by
    intro n
    induction n with
    | zero =>
      intro u v hu
      cases u with
      | nil => simpa [pyReplace_nil] using base v
      | cons c u' => simp at hu
    | succ n ih =>
      intro u v hu
      cases u with
      | nil => simpa [pyReplace_nil] using base v
      | cons c u' =>
        rw [List.cons_append]
        by_cases hc : bsl = c
        · subst hc
          cases u' with
          | nil =>
            have hno : ¬(bsl = bsl ∧ leadMatch [x] (bsl :: y :: v) = true) :=
              fun hh => hx (leadMatch_single_cons.mp hh.2)
            rw [List.nil_append, pyReplace_cons_nomatch hno, base v]
            have hone : pyReplace bsl [x] rep [bsl] = [bsl] := by
              rw [pyReplace_cons_nomatch (by simp [leadMatch]), pyReplace_nil]
            rw [hone]
            simp
          | cons d u'' =>
            by_cases hd : x = d
            · subst hd
              rw [List.cons_append,
                pyReplace_cons_match rfl (leadMatch_single_cons.mpr rfl)]
              have hdrop : ((x :: (u'' ++ bsl :: y :: v)).drop ([x] : List Char).length)
                  = u'' ++ bsl :: y :: v := by simp
              rw [hdrop, ih u'' v (by simp only [List.length_cons] at hu ⊢; omega),
                pyReplace_cons_match rfl (leadMatch_single_cons.mpr rfl)]
              have hdrop2 : ((x :: u'').drop ([x] : List Char).length) = u'' := by simp
              rw [hdrop2]
              simp
            · have hno : ∀ t : List Char,
                  ¬(bsl = bsl ∧ leadMatch [x] (d :: t) = true) :=
                fun t hh => hd (leadMatch_single_cons.mp hh.2)
              rw [List.cons_append, pyReplace_cons_nomatch (hno _),
                ← List.cons_append,
                ih (d :: u'') v (by simp only [List.length_cons] at hu ⊢; omega),
                pyReplace_cons_nomatch (hno u'')]
              simp
        · rw [pyReplace_cons_nomatch (fun hh => hc hh.1),
            ih u' v (by simp only [List.length_cons] at hu; omega),
            pyReplace_cons_nomatch (fun hh => hc hh.1)]
          simp
  exact fun u v => main u.length u v (le_refl _)

theorem repl_interc_eq (x : Char) (hx : x ≠ bsl) (rep : List Char) :
    ∀ parts : List (List Char),
      pyReplace bsl [x] rep (interc [bsl, x] parts)
        = interc rep (parts.map (pyReplace bsl [x] rep)) := by
  intro parts
  induction parts with
  | nil => rfl
  | cons a t ih =>
    cases t with
    | nil => rfl
    | cons b t' =>
      have hi : interc [bsl, x] (a :: b :: t') = a ++ bsl :: x :: interc [bsl, x] (b :: t') := by
        show a ++ [bsl, x] ++ interc [bsl, x] (b :: t') = _
        simp
      rw [hi, repl_split_eq hx rep, ih]
      show _ = pyReplace bsl [x] rep a ++ rep ++ interc rep ((b :: t').map (pyReplace bsl [x] rep))
      rfl

theorem repl_interc_keep (x y : Char) (hxy : x ≠ y) (hyb : y ≠ bsl) (hx : x ≠ bsl)
    (rep : List Char) :
    ∀ parts : List (List Char),
      pyReplace bsl [x] rep (interc [bsl, y] parts)
        = interc [bsl, y] (parts.map (pyReplace bsl [x] rep)) := by
  intro parts
  induction parts with
  | nil => rfl
  | cons a t ih =>
    cases t with
    | nil => rfl
    | cons b t' =>
      have hi : interc [bsl, y] (a :: b :: t') = a ++ bsl :: y :: interc [bsl, y] (b :: t') := by
        show a ++ [bsl, y] ++ interc [bsl, y] (b :: t') = _
        simp
      rw [hi, repl_split_keep hxy hyb hx rep, ih]
      show _ = pyReplace bsl [x] rep a ++ [bsl, y]
          ++ interc [bsl, y] ((b :: t').map (pyReplace bsl [x] rep))
      simp

theorem filter_interc_ten (segs : List (List Nat)) :
    (interc [10] segs).filter (fun b => b != 0)
      = interc [10] (segs.map (fun s => s.filter (fun b => b != 0))) := by
  induction segs with
  | nil => rfl
  | cons a t ih =>
    cases t with
    | nil => rfl
    | cons b t' =>
      show (a ++ [10] ++ interc [10] (b :: t')).filter (fun b => b != 0)
        = a.filter (fun b => b != 0) ++ [10]
            ++ interc [10] ((b :: t').map (fun s => s.filter (fun b => b != 0)))
      rw [List.filter_append, List.filter_append, ih]
      simp

theorem escapeByte_ten {q : Nat} (hq : q = 34 ∨ q = 39) : escapeByte q 10 = [bsl, 'n'] := by
  rcases hq with rfl | rfl <;> rfl

theorem pyContent_interc {q : Nat} (hq : q = 34 ∨ q = 39) (fsegs : List (List Nat)) :
    pyContent q (interc [10] fsegs) = interc [bsl, 'n'] (fsegs.map (pyContent q)) := by
  induction fsegs with
  | nil => rfl
  | cons a t ih =>
    cases t with
    | nil => rfl
    | cons b t' =>
      show pyContent q (a ++ [10] ++ interc [10] (b :: t'))
        = pyContent q a ++ [bsl, 'n'] ++ interc [bsl, 'n'] ((b :: t').map (pyContent q))
      unfold pyContent at *
      rw [List.map_append, List.map_append, List.flatten_append, List.flatten_append, ih]
      simp [escapeByte_ten hq]

theorem crChar_not_mem_pyContent {q : Nat} (hq : q = 34 ∨ q = 39) (bs : List Nat) :
    crChar ∉ pyContent q bs := by
  intro h
  have := mem_pyContent hq h
  revert this
  decide

theorem bytes_to_string_lines (bs : List Nat) (segs : List (List Nat))
    (hsegs : ∀ seg ∈ segs, (10 : Nat) ∉ seg) (hbs : bs = interc [10] segs) :
    bytes_to_string bs
      = interc [' ']
          (segs.map (decodeSegment (quoteByte (bs.filter (fun b => b != 0))))) := by
  subst hbs
  have hq := quoteByte_eq ((interc [10] segs).filter (fun b => b != 0))
  set q := quoteByte ((interc [10] segs).filter (fun b => b != 0)) with hqdef
  show pyReplace bsl ['n'] [' ']
      (pyReplace bsl ['r'] []
        (pyReplace crChar [] []
          (pyContent q ((interc [10] segs).filter (fun b => b != 0)))))
    = interc [' '] (segs.map (decodeSegment q))
  rw [pyReplace_not_mem (crChar_not_mem_pyContent hq _), filter_interc_ten,
    pyContent_interc hq,
    repl_interc_keep 'r' 'n' (by decide) (by decide) (by decide),
    repl_interc_eq 'n' (by decide)]
  congr 1
  rw [List.map_map, List.map_map, List.map_map]
  apply List.map_congr_left
  intro seg hseg
  simp only [Function.comp]
  unfold decodeSegment
  rw [pyReplace_not_mem (crChar_not_mem_pyContent hq _)]

theorem get?_setIdx_ne {α : Type} :
    ∀ (l : List α) (i j : Nat) (a : α), i ≠ j → (setIdx l i a).get? j = l.get? j := by
  intro l
  induction l with
  | nil => intro i j a _; cases i <;> rfl
  | cons h t ih =>
    intro i j a hij
    cases i with
    | zero =>
      cases j with
      | zero => exact absurd rfl hij
      | succ j' => rfl
    | succ i' =>
      cases j with
      | zero => rfl
      | succ j' =>
        show (setIdx t i' a).get? j' = t.get? j'
        exact ih i' j' a (fun hh => hij (congrArg Nat.succ hh))

theorem get?_setIdx_self {α : Type} :
    ∀ (l : List α) (i : Nat) (a : α), i < l.length → (setIdx l i a).get? i = some a := by
  intro l
  induction l with
  | nil => intro i a h; simp at h
  | cons hd t ih =>
    intro i a h
    cases i with
    | zero => rfl
    | succ i' =>
      show (setIdx t i' a).get? i' = some a
      exact ih i' a (Nat.lt_of_succ_lt_succ h)

theorem foldl_pres {σ ε : Type} (f : σ → ε → σ) (P : σ → Prop)
    (hstep : ∀ s e, P s → P (f s e)) :
    ∀ (l : List ε) (s : σ), P s → P (l.foldl f s) := by
  intro l
  induction l with
  | nil => intro s h; exact h
  | cons e t ih => intro s h; exact ih _ (hstep s e h)

/-- Lifecycle invariant of one unit, tying its coroutine phase to the
fields of its `Command` object. -/
def UnitInv (u : UnitState) : Prop :=
  (u.phase = Phase.created → u.c.process = none ∧ u.c.start_time = none ∧
    u.c.end_time = none ∧ u.c.stdout = none ∧ u.c.stderr = none) ∧
  (u.phase = Phase.started → u.c.process = none ∧ u.c.start_time.isSome = true ∧
    u.c.end_time = none ∧ u.c.stdout = none ∧ u.c.stderr = none) ∧
  (u.phase = Phase.running → (∃ p, u.c.process = some p ∧ p.returncode = none) ∧
    u.c.start_time.isSome = true ∧ u.c.end_time = none ∧ u.c.stdout = none ∧
    u.c.stderr = none) ∧
  (u.phase = Phase.failed → u.c.process = none ∧ u.c.end_time = none ∧
    u.c.stdout = none ∧ u.c.stderr = none) ∧
  (u.phase = Phase.done → (∃ p rc, u.c.process = some p ∧ p.returncode = some rc) ∧
    u.c.start_time.isSome = true ∧ u.c.end_time.isSome = true ∧
    u.c.stdout.isSome = true ∧ u.c.stderr.isSome = true)

/-- Global invariant of a batch state: the gather outcome is tied to
unit phases, and every unit satisfies its lifecycle invariant. -/
def BatchInv (s : BatchState) : Prop :=
  (s.outcome = Outcome.raised →
    ∃ i u, s.units.get? i = some u ∧ u.phase = Phase.failed) ∧
  (s.outcome = Outcome.normal →
    ∀ i u, s.units.get? i = some u → u.phase = Phase.done) ∧
  (∀ i u, s.units.get? i = some u → UnitInv u)

theorem unitInv_start {u : UnitState} (h : UnitInv u) (hph : u.phase = Phase.created)
    (t : ℚ) :
    UnitInv { u with phase := Phase.started, c := { u.c with start_time := some t } } := by
  obtain ⟨ic, _, _, _, _⟩ := h
  obtain ⟨hpr, _, hen, hso, hse⟩ := ic hph
  refine ⟨?_, ?_, ?_, ?_, ?_⟩ <;> intro hx <;> simp at hx ⊢
  exact ⟨hpr, hen, hso, hse⟩

theorem unitInv_spawn {u : UnitState} (h : UnitInv u) (hph : u.phase = Phase.started)
    (pid : Nat) :
    UnitInv { u with
        phase := Phase.running,
        c := { u.c with process := some { pid := pid, returncode := none } } } := by
  obtain ⟨_, is, _, _, _⟩ := h
  obtain ⟨_, hst, hen, hso, hse⟩ := is hph
  refine ⟨?_, ?_, ?_, ?_, ?_⟩ <;> intro hx <;> simp at hx ⊢
  exact ⟨hst, hen, hso, hse⟩

theorem unitInv_fail {u : UnitState} (h : UnitInv u) (hph : u.phase = Phase.started) :
    UnitInv { u with phase := Phase.failed } := by
  obtain ⟨_, is, _, _, _⟩ := h
  obtain ⟨hpr, _, hen, hso, hse⟩ := is hph
  refine ⟨?_, ?_, ?_, ?_, ?_⟩ <;> intro hx <;> simp at hx ⊢
  exact ⟨hpr, hen, hso, hse⟩

theorem unitInv_finish {u : UnitState} (h : UnitInv u) (hph : u.phase = Phase.running)
    {pr : ProcState} (hpr : u.c.process = some pr) (rc : Int)
    (so se : List Char) (t : ℚ) :
    UnitInv { u with
        phase := Phase.done,
        c := { u.c with
            process := some { pr with returncode := some rc },
            stdout := some so, stderr := some se, end_time := some t } } := by
  obtain ⟨_, _, ir, _, _⟩ := h
  obtain ⟨_, hst, _, _, _⟩ := ir hph
  refine ⟨?_, ?_, ?_, ?_, ?_⟩ <;> intro hx <;> simp at hx ⊢
  exact hst

theorem stepEv_inv (specs : List UnitSpec) (s : BatchState) (e : Ev)
    (h : BatchInv s) : BatchInv (stepEv specs s e) := by
  obtain ⟨hraised, hnormal, hunits⟩ := h
  unfold stepEv
  by_cases hp : s.outcome ≠ Outcome.pending
  · rw [if_pos hp]; exact ⟨hraised, hnormal, hunits⟩
  · rw [if_neg hp]
    rw [not_not] at hp
    cases e with
    | start i =>
      cases hgu : s.units.get? i with
      | none => simp only [hgu]; exact ⟨hraised, hnormal, hunits⟩
      | some u =>
        simp only [hgu]
        by_cases hph : u.phase = Phase.created
        · rw [if_pos hph]
          refine ⟨?_, ?_, ?_⟩
          · intro hr
            have hr' : s.outcome = Outcome.raised := hr
            rw [hp] at hr'
            exact absurd hr' (by decide)
          · intro hr
            have hr' : s.outcome = Outcome.normal := hr
            rw [hp] at hr'
            exact absurd hr' (by decide)
          · intro j u' hj
            have hj' : (setIdx s.units i
                { u with phase := Phase.started,
                         c := { u.c with start_time := some ((s.clock : ℚ)) } }).get? j
                = some u' := hj
            by_cases hij : i = j
            · subst hij
              have hbound : i < s.units.length := (List.get?_eq_some.mp hgu).1
              rw [get?_setIdx_self _ _ _ hbound] at hj'
              obtain rfl := Option.some.inj hj'
              exact unitInv_start (hunits i u hgu) hph _
            · rw [get?_setIdx_ne _ _ _ _ hij] at hj'
              exact hunits j u' hj'
        · rw [if_neg hph]; exact ⟨hraised, hnormal, hunits⟩
    | spawn i =>
      cases hgu : s.units.get? i with
      | none => simp only [hgu]; exact ⟨hraised, hnormal, hunits⟩
      | some u =>
        cases hgs : specs.get? i with
        | none => simp only [hgu, hgs]; exact ⟨hraised, hnormal, hunits⟩
        | some sp =>
          simp only [hgu, hgs]
          by_cases hph : u.phase = Phase.started
          · rw [if_pos hph]
            by_cases hok : sp.spawnOk
            · rw [if_pos hok]
              refine ⟨?_, ?_, ?_⟩
              · intro hr
                have hr' : s.outcome = Outcome.raised := hr
                rw [hp] at hr'
                exact absurd hr' (by decide)
              · intro hr
                have hr' : s.outcome = Outcome.normal := hr
                rw [hp] at hr'
                exact absurd hr' (by decide)
              · intro j u' hj
                have hj' : (setIdx s.units i
                    { u with phase := Phase.running,
                             c := { u.c with
                               process := some { pid := sp.pid, returncode := none } } }).get? j
                    = some u' := hj
                by_cases hij : i = j
                · subst hij
                  have hbound : i < s.units.length := (List.get?_eq_some.mp hgu).1
                  rw [get?_setIdx_self _ _ _ hbound] at hj'
                  obtain rfl := Option.some.inj hj'
                  exact unitInv_spawn (hunits i u hgu) hph _
                · rw [get?_setIdx_ne _ _ _ _ hij] at hj'
                  exact hunits j u' hj'
            · rw [if_neg hok]
              refine ⟨?_, ?_, ?_⟩
              · intro hr
                have hr' : s.outcome = Outcome.raised := hr
                rw [hp] at hr'
                exact absurd hr' (by decide)
              · intro hr
                have hr' : s.outcome = Outcome.normal := hr
                rw [hp] at hr'
                exact absurd hr' (by decide)
              · intro j u' hj
                have hj' : (setIdx s.units i { u with phase := Phase.failed }).get? j
                    = some u' := hj
                by_cases hij : i = j
                · subst hij
                  have hbound : i < s.units.length := (List.get?_eq_some.mp hgu).1
                  rw [get?_setIdx_self _ _ _ hbound] at hj'
                  obtain rfl := Option.some.inj hj'
                  exact unitInv_fail (hunits i u hgu) hph
                · rw [get?_setIdx_ne _ _ _ _ hij] at hj'
                  exact hunits j u' hj'
          · rw [if_neg hph]; exact ⟨hraised, hnormal, hunits⟩
    | finish i =>
      cases hgu : s.units.get? i with
      | none => simp only [hgu]; exact ⟨hraised, hnormal, hunits⟩
      | some u =>
        cases hgs : specs.get? i with
        | none => simp only [hgu, hgs]; exact ⟨hraised, hnormal, hunits⟩
        | some sp =>
          simp only [hgu, hgs]
          cases hph : u.phase with
          | created => exact ⟨hraised, hnormal, hunits⟩
          | started => exact ⟨hraised, hnormal, hunits⟩
          | done => exact ⟨hraised, hnormal, hunits⟩
          | failed => exact ⟨hraised, hnormal, hunits⟩
          | running =>
            cases hpr : u.c.process with
            | none => exact ⟨hraised, hnormal, hunits⟩
            | some pr =>
              refine ⟨?_, ?_, ?_⟩
              · intro hr
                have hr' : s.outcome = Outcome.raised := hr
                rw [hp] at hr'
                exact absurd hr' (by decide)
              · intro hr
                have hr' : s.outcome = Outcome.normal := hr
                rw [hp] at hr'
                exact absurd hr' (by decide)
              · intro j u' hj
                have hj' : (setIdx s.units i
                    { u with phase := Phase.done,
                             c := { u.c with
                               process := some { pr with returncode := some sp.exitCode },
                               stdout := some (bytes_to_string sp.outB),
                               stderr := some (bytes_to_string sp.errB),
                               end_time := some ((s.clock : ℚ)) } }).get? j
                    = some u' := hj
                by_cases hij : i = j
                · subst hij
                  have hbound : i < s.units.length := (List.get?_eq_some.mp hgu).1
                  rw [get?_setIdx_self _ _ _ hbound] at hj'
                  obtain rfl := Option.some.inj hj'
                  exact unitInv_finish (hunits i u hgu) hph hpr _ _ _ _
                · rw [get?_setIdx_ne _ _ _ _ hij] at hj'
                  exact hunits j u' hj'
    | settle =>
      by_cases hany : s.units.any (fun u => decide (u.phase = Phase.failed)) = true
      · rw [if_pos hany]
        refine ⟨?_, ?_, ?_⟩
        · intro _
          obtain ⟨u, hu, hf⟩ := List.any_eq_true.mp hany
          obtain ⟨i, hi⟩ := List.mem_iff_get?.mp hu
          exact ⟨i, u, hi, of_decide_eq_true hf⟩
        · intro hr
          have hr' : Outcome.raised = Outcome.normal := hr
          exact absurd hr' (by decide)
        · exact hunits
      · rw [if_neg hany]
        by_cases hall : s.units.all (fun u => decide (u.phase = Phase.done)) = true
        · rw [if_pos hall]
          refine ⟨?_, ?_, ?_⟩
          · intro hr
            have hr' : Outcome.normal = Outcome.raised := hr
            exact absurd hr' (by decide)
          · intro _ i u hi
            exact of_decide_eq_true (List.all_eq_true.mp hall u (List.get?_mem hi))
          · exact hunits
        · rw [if_neg hall]; exact ⟨hraised, hnormal, hunits⟩

theorem initBatch_inv (specs : List UnitSpec) : BatchInv (initBatch specs) := by
  refine ⟨?_, ?_, ?_⟩
  · intro hr
    exact absurd (show Outcome.pending = Outcome.raised from hr) (by decide)
  · intro hr
    exact absurd (show Outcome.pending = Outcome.normal from hr) (by decide)
  · intro i u hi
    have hi' : (specs.map (fun sp =>
        ({ phase := Phase.created, c := Command.mk0 sp.cmd } : UnitState))).get? i
        = some u := hi
    rw [List.get?_map] at hi'
    cases hsp : specs.get? i with
    | none => rw [hsp] at hi'; exact Option.noConfusion hi'
    | some sp =>
      rw [hsp] at hi'
      obtain rfl := Option.some.inj hi'
      refine ⟨?_, ?_, ?_, ?_, ?_⟩ <;> intro hx <;> simp [Command.mk0] at hx ⊢

theorem runBatch_inv (specs : List UnitSpec) (sched : List Ev) :
    BatchInv (runBatch specs sched) :=
  foldl_pres _ BatchInv (stepEv_inv specs) sched (initBatch specs) (initBatch_inv specs)

/-- A unit in the *Running* state: spawned (pid 5) but not exited. -/
def cRunning : Command :=
  { cmd := ['x'], process := some { pid := 5, returncode := none },
    stdout := none, stderr := none, start_time := some 0, end_time := none }

/-- A unit in the *Completed* state with a failing exit status. -/
def cDone : Command :=
  { cmd := ['l', 's'], process := some { pid := 7, returncode := some 1 },
    stdout := some ['o'], stderr := some ['e'], start_time := some 0, end_time := some 90 }

/-- Claim C2, counterexample: a freshly constructed unit (and likewise a
running unit) has not completed, yet querying its exit status does not
fail fast: `return_code` silently returns the Python value `None`
(`Except.ok none`), exactly as its own docstring says, instead of
raising an invalid-state error. -/
theorem C2_counterexample :
    (Command.mk0 ['x']).end_time = none ∧
    (Command.mk0 ['x']).return_code = Except.ok none ∧
    cRunning.end_time = none ∧
    cRunning.return_code = Except.ok none :=
  ⟨rfl, rfl, rfl, rfl⟩

/-- Claim C2, amended: before completion, querying elapsed time does
fail fast (a `TypeError` from subtracting `None` timestamps), but
querying the exit status never raises — it silently returns `None`,
both before spawn and while the process is still running. -/
theorem C2_invalid_state_queries (c : Command)
    (h : c.end_time = none ∨ c.start_time = none) :
    c.time_delta = Except.error PyErr.typeError ∧
    (c.process = none → c.return_code = Except.ok none) ∧
    (∀ p, c.process = some p → p.returncode = none → c.return_code = Except.ok none) := by
  refine ⟨?_, ?_, ?_⟩
  · rcases h with h | h
    · simp [Command.time_delta, h]
    · cases hE : c.end_time with
      | none => simp [Command.time_delta, hE]
      | some e => simp [Command.time_delta, hE, h]
  · intro hp
    simp [Command.return_code, hp]
  · intro p hp hrc
    simp [Command.return_code, hp, hrc]

theorem C2_invalid_state_queries_witness :
    (Command.mk0 ['x']).time_delta = Except.error PyErr.typeError :=
  (C2_invalid_state_queries (Command.mk0 ['x']) (Or.inl rfl)).1

theorem completed_fields (c : Command) (h : c.isCompleted = true) :
    ∃ p rc s e so se, c.process = some p ∧ p.returncode = some rc ∧
      c.start_time = some s ∧ c.end_time = some e ∧
      c.stdout = some so ∧ c.stderr = some se := by
  cases hpr : c.process with
  | none => simp [Command.isCompleted, hpr] at h
  | some p =>
    simp [Command.isCompleted, hpr] at h
    obtain ⟨⟨⟨⟨hrcs, hS⟩, hE⟩, hO⟩, hR⟩ := h
    obtain ⟨rc, hrc⟩ := Option.isSome_iff_exists.mp hrcs
    obtain ⟨s, hs⟩ := Option.isSome_iff_exists.mp hS
    obtain ⟨e, he⟩ := Option.isSome_iff_exists.mp hE
    obtain ⟨so, hso⟩ := Option.isSome_iff_exists.mp hO
    obtain ⟨se, hse⟩ := Option.isSome_iff_exists.mp hR
    exact ⟨p, rc, s, e, so, se, rfl, hrc, hs, he, hso, hse⟩

theorem strFmt_completed (c : Command) (h : c.isCompleted = true) :
    ∃ line, c.strFmt = Except.ok line := by
  obtain ⟨p, rc, s, e, so, se, hpr, hrc, hs, he, _, _⟩ := completed_fields c h
  simp [Command.strFmt, hpr, hrc, Command.time_delta, hs, he]

/-- Claim C6: for a *Completed* unit, `time_delta` returns the pair
(minutes, seconds) derived from `end_time - start_time`: the second
component is the total seconds of the duration, and the first is its
whole-minute count (m * 60 ≤ seconds < m * 60 + 60). -/
theorem C6_elapsed_pair (c : Command) (h : c.isCompleted = true) :
    ∃ (s e secs : ℚ) (m : ℤ),
      c.start_time = some s ∧ c.end_time = some e ∧
      c.time_delta = Except.ok (((m : ℤ) : ℚ), secs) ∧
      secs = e - s ∧
      ((m : ℤ) : ℚ) * 60 ≤ secs ∧ secs < ((m : ℤ) : ℚ) * 60 + 60 := by
  obtain ⟨p, rc, s, e, so, se, hpr, hrc, hs, he, hso, hse⟩ := completed_fields c h
  refine ⟨s, e, e - s, ⌊(e - s) / 60⌋, hs, he, ?_, rfl, ?_, ?_⟩
  · simp [Command.time_delta, hs, he]
  · have h1 : ((⌊(e - s) / 60⌋ : ℤ) : ℚ) ≤ (e - s) / 60 := Int.floor_le _
    have h60 : (0 : ℚ) < 60 := by norm_num
    calc ((⌊(e - s) / 60⌋ : ℤ) : ℚ) * 60 ≤ ((e - s) / 60) * 60 := by
          exact mul_le_mul_of_nonneg_right h1 (le_of_lt h60)
      _ = e - s := by field_simp
  · have h2 : (e - s) / 60 < (⌊(e - s) / 60⌋ : ℤ) + 1 := Int.lt_floor_add_one _
    have h60 : (0 : ℚ) < 60 := by norm_num
    have := (div_lt_iff h60).mp h2
    linarith

theorem C6_elapsed_pair_witness :
    ∃ (s e secs : ℚ) (m : ℤ),
      cDone.start_time = some s ∧ cDone.end_time = some e ∧
      cDone.time_delta = Except.ok (((m : ℤ) : ℚ), secs) ∧
      secs = e - s ∧
      ((m : ℤ) : ℚ) * 60 ≤ secs ∧ secs < ((m : ℤ) : ℚ) * 60 + 60 :=
  C6_elapsed_pair cDone (by decide)

/-- Claim C10: once the process has been spawned (pid query yields a
value) but the unit has not completed (exit-status query yields no
value, or the end timestamp is unset), producing the display line
raises `TypeError`; display formatting succeeds in the *Created* state
(placeholders) and in the *Completed* state. -/
theorem C10_display_totality (c : Command) :
    (c.pid = Except.ok none → ∃ s, c.strFmt = Except.ok s) ∧
    (∀ p, c.pid = Except.ok (some p) →
      (c.return_code = Except.ok none ∨ c.end_time = none) →
      c.strFmt = Except.error PyErr.typeError) ∧
    (c.isCompleted = true → ∃ s, c.strFmt = Except.ok s) := by
  refine ⟨?_, ?_, ?_⟩
  · intro hpid
    cases hpr : c.process with
    | none => simp [Command.strFmt, hpr]
    | some p => simp [Command.pid, hpr] at hpid
  · intro p hpid habs
    cases hpr : c.process with
    | none => simp [Command.pid, hpr] at hpid
    | some pr =>
      cases hrc : pr.returncode with
      | none => simp [Command.strFmt, hpr, hrc]
      | some rc =>
        rcases habs with habs | habs
        · simp [Command.return_code, hpr, hrc] at habs
        · simp [Command.strFmt, hpr, hrc, Command.time_delta, habs]
  · exact strFmt_completed c

theorem C10_display_totality_witness :
    cRunning.strFmt = Except.error PyErr.typeError :=
  (C10_display_totality cRunning).2.1 5 rfl (Or.inl rfl)

/-- Claim C3: for every *Completed* unit, `write_log` classifies it as
success exactly when the exit status is 0, emitting an info record that
is the display line; any non-zero status yields an error record that is
the display line followed by the captured stderr then stdout text; and
`write_log` never raises on a completed unit. -/
theorem C3_outcome_reporter (c : Command) (h : c.isCompleted = true) :
    ∃ line, c.strFmt = Except.ok line ∧
      (c.return_code = Except.ok (some 0) →
        write_log c = Except.ok (LogLevel.info, line)) ∧
      (∀ rc se so, c.return_code = Except.ok (some rc) → rc ≠ 0 →
        c.stderr = some se → c.stdout = some so →
        write_log c = Except.ok (LogLevel.error, line ++ se ++ so)) ∧
      (∃ r, write_log c = Except.ok r) := by
  obtain ⟨p, rc0, s, e, so0, se0, hpr, hrc, hs, he, hso, hse⟩ := completed_fields c h
  obtain ⟨line, hline⟩ := strFmt_completed c h
  refine ⟨line, hline, ?_, ?_, ?_⟩
  · intro h0
    have h0' : p.returncode = some 0 := by
      simpa [Command.return_code, hpr] using h0
    simp [write_log, Command.return_code, hpr, h0', hline, Except.map]
  · intro rc se so h1 hne h2 h3
    have hprc : p.returncode = some rc := by
      simpa [Command.return_code, hpr] using h1
    simp [write_log, Command.return_code, hpr, hprc, hne, hline, h2, h3, pyStr, Except.map]
  · by_cases hc : rc0 = 0
    · refine ⟨(LogLevel.info, line), ?_⟩
      simp [write_log, Command.return_code, hpr, hrc, hc, hline, Except.map]
    · refine ⟨(LogLevel.error, line ++ pyStr c.stderr ++ pyStr c.stdout), ?_⟩
      simp [write_log, Command.return_code, hpr, hrc, hc, hline, Except.map]

theorem C3_outcome_reporter_witness :
    ∃ line, cDone.strFmt = Except.ok line ∧
      (cDone.return_code = Except.ok (some 0) →
        write_log cDone = Except.ok (LogLevel.info, line)) ∧
      (∀ rc se so, cDone.return_code = Except.ok (some rc) → rc ≠ 0 →
        cDone.stderr = some se → cDone.stdout = some so →
        write_log cDone = Except.ok (LogLevel.error, line ++ se ++ so)) ∧
      (∃ r, write_log cDone = Except.ok r) :=
  C3_outcome_reporter cDone (by decide)

/-- Claim C4: for every input byte sequence, the decoder output
contains no null character and no raw carriage-return character, and,
viewing the input as line-feed-separated segments, every line-ending
separator appears in the output as exactly one single space (a
carriage return preceding the line feed is removed inside its
segment's passes, so CRLF also becomes one space). -/
theorem C4_decoder_output (bs : List Nat) (segs : List (List Nat))
    (hsegs : ∀ seg ∈ segs, (10 : Nat) ∉ seg) (hbs : bs = interc [10] segs) :
    Char.ofNat 0 ∉ bytes_to_string bs ∧
    crChar ∉ bytes_to_string bs ∧
    bytes_to_string bs
      = interc [' ']
          (segs.map (decodeSegment (quoteByte (bs.filter (fun b => b != 0))))) := by
  refine ⟨?_, ?_, bytes_to_string_lines bs segs hsegs hbs⟩
  · intro hmem
    have := mem_bytes_to_string hmem
    revert this
    decide
  · intro hmem
    have := mem_bytes_to_string hmem
    revert this
    decide

theorem C4_decoder_output_witness :
    bytes_to_string [104, 13, 10, 105]
      = interc [' ']
          ([[104, 13], [105]].map
            (decodeSegment (quoteByte ([104, 13, 10, 105].filter (fun b => b != 0))))) :=
  (C4_decoder_output [104, 13, 10, 105] [[104, 13], [105]] (by decide) rfl).2.2

/-- Claim C5: the decoder is total — for every byte sequence, including
null bytes, carriage-return/line-feed sequences and malformed
non-ASCII bytes, it returns a string (never raises); two stress inputs
are evaluated explicitly. -/
theorem C5_decoder_total :
    (∀ bs : List Nat, ∃ s : List Char, bytes_to_string bs = s) ∧
    bytes_to_string [0, 13, 10] = [' '] ∧
    bytes_to_string [255, 0, 254] = [bsl, 'x', 'f', 'f', bsl, 'x', 'f', 'e'] :=
  ⟨fun bs => ⟨bytes_to_string bs, rfl⟩, by decide, by decide⟩

/-- Claim C9, counterexample: a lone single-quote byte is NOT escaped
by the decoder — `str(b"'")` is double-quoted, so the slice keeps a
bare single quote, refuting the claim that a single-quote byte always
appears as backslash-quote. -/
theorem C9_counterexample :
    bytes_to_string [39] = [squote] ∧
    bytes_to_string [39] ≠ [bsl, squote] := by
  decide

/-- Claim C9, amended: every output character is printable ASCII
(codes 32..126); a byte outside printable ASCII appears as a literal
backslash escape (0x9c becomes the four characters backslash-x-9-c);
a single-quote byte appears escaped as backslash-quote exactly when
the input also contains a double-quote byte (Python then delimits the
repr with single quotes), and otherwise appears as a bare quote. -/
theorem C9_printable_escapes :
    (∀ (bs : List Nat) (a : Char), a ∈ bytes_to_string bs →
      32 ≤ a.toNat ∧ a.toNat ≤ 126) ∧
    bytes_to_string [156] = [bsl, 'x', '9', 'c'] ∧
    bytes_to_string [34, 39] = [dquote, bsl, squote] ∧
    bytes_to_string [39] = [squote] :=
  ⟨fun _ _ h => mem_bytes_to_string h, by decide, by decide, by decide⟩

theorem C9_printable_escapes_witness :
    32 ≤ bsl.toNat ∧ bsl.toNat ≤ 126 :=
  C9_printable_escapes.1 [156] bsl (by decide)

/-- Schedule in which both units complete, unit 0 first. -/
def schedA : List Ev :=
  [Ev.start 0, Ev.start 1, Ev.spawn 0, Ev.spawn 1, Ev.finish 0, Ev.finish 1, Ev.settle]

/-- Schedule in which both units complete, unit 1 first. -/
def schedB : List Ev :=
  [Ev.start 0, Ev.start 1, Ev.spawn 0, Ev.spawn 1, Ev.finish 1, Ev.finish 0, Ev.settle]

/-- Claim C1, counterexample: with a batch of a spawn-failing unit and
a healthy unit, there is an execution in which the batch call raises
the spawn failure while the sibling unit is still only `started` —
`gather` with the default `return_exceptions=False` propagates the
first exception immediately, and the teardown by `asyncio.run` then
cancels the sibling, so the runner neither waits for nor completes
every other unit, and the failure surfaces before the batch
completes. -/
theorem C1_counterexample :
    (runBatch [specBad, specOk]
        [Ev.start 0, Ev.start 1, Ev.spawn 0, Ev.settle]).outcome = Outcome.raised ∧
    ((runBatch [specBad, specOk]
        [Ev.start 0, Ev.start 1, Ev.spawn 0, Ev.settle]).units.get? 1).map UnitState.phase
      = some Phase.started ∧
    Phase.started ≠ Phase.done := by
  refine ⟨by decide, by decide, by decide⟩

/-- Claim C1, amended: a raised batch call always stems from a unit
whose spawn failed, and sibling units are not cancelled by the failure
itself — they may still run to completion (and log) before the
exception is surfaced — but the batch call raises as soon as the
gather await is resolved after the failure, possibly before sibling
units complete; it does not wait for the whole batch. -/
theorem C1_spawn_failure :
    (∀ (specs : List UnitSpec) (sched : List Ev),
      (runBatch specs sched).outcome = Outcome.raised →
      ∃ i u, (runBatch specs sched).units.get? i = some u ∧ u.phase = Phase.failed) ∧
    ((runBatch [specBad, specOk]
        [Ev.start 0, Ev.start 1, Ev.spawn 0, Ev.spawn 1, Ev.finish 1, Ev.settle]).outcome
      = Outcome.raised ∧
     ((runBatch [specBad, specOk]
        [Ev.start 0, Ev.start 1, Ev.spawn 0, Ev.spawn 1, Ev.finish 1, Ev.settle]).units.get? 1).map
        UnitState.phase = some Phase.done) :=
  ⟨fun specs sched hr => (runBatch_inv specs sched).1 hr, by decide, by decide⟩

theorem C1_spawn_failure_witness :
    ∃ i u, (runBatch [specBad, specOk] [Ev.start 0, Ev.spawn 0, Ev.settle]).units.get? i
        = some u ∧ u.phase = Phase.failed :=
  C1_spawn_failure.1 [specBad, specOk] [Ev.start 0, Ev.spawn 0, Ev.settle] (by decide)

/-- The state unit 0 of `[specOk, specOk2]` reaches after `schedA`. -/
def unitA : UnitState :=
  { phase := Phase.done,
    c := { cmd := ['o', 'k'], process := some { pid := 5, returncode := some 0 },
           stdout := some [], stderr := some [],
           start_time := some 0, end_time := some 4 } }

/-- Claim C8, counterexample: when one unit's spawn fails, the batch
call can return (by raising) while a sibling unit is neither Completed
nor spawn-failed (it is still `started`), refuting the unqualified
claim that the batch call returns only after every unit reached a
terminal state. -/
theorem C8_counterexample :
    (runBatch [specOk, specBad]
        [Ev.start 0, Ev.start 1, Ev.spawn 1, Ev.settle]).outcome = Outcome.raised ∧
    ((runBatch [specOk, specBad]
        [Ev.start 0, Ev.start 1, Ev.spawn 1, Ev.settle]).units.get? 0).map UnitState.phase
      = some Phase.started ∧
    Phase.started ≠ Phase.done ∧ Phase.started ≠ Phase.failed := by
  refine ⟨by decide, by decide, by decide, by decide⟩

/-- Claim C8, amended: whenever the batch call returns normally, every
unit has reached the Completed state — and no completion order is
imposed: both the schedule finishing unit 0 first and the schedule
finishing unit 1 first are complete executions ending in a normal
return. When a spawn fails, the call instead raises, possibly before
sibling units reach a terminal state. -/
theorem C8_join_semantics :
    (∀ (specs : List UnitSpec) (sched : List Ev),
      (runBatch specs sched).outcome = Outcome.normal →
      ∀ i u, (runBatch specs sched).units.get? i = some u → u.phase = Phase.done) ∧
    (runBatch [specOk, specOk2] schedA).outcome = Outcome.normal ∧
    (runBatch [specOk, specOk2] schedB).outcome = Outcome.normal :=
  ⟨fun specs sched hn => (runBatch_inv specs sched).2.1 hn, by decide, by decide⟩

theorem C8_join_semantics_witness : unitA.phase = Phase.done :=
  C8_join_semantics.1 [specOk, specOk2] schedA (by decide) 0 unitA (by decide)

/-- Claim C7, counterexample: immediately after the spawn completes the
unit is `running`: the pid query already yields a value while the
exit-status query still yields no value (`None`), refuting the claim
that identifier and exit status are both present once the spawn has
completed. -/
theorem C7_counterexample :
    ((runBatch [specOk] [Ev.start 0, Ev.spawn 0]).units.get? 0).map
        (fun u => (u.phase, u.c.pid, u.c.return_code))
      = some (Phase.running, Except.ok (some 5), Except.ok (none : Option Int)) := rfl

/-- Claim C7, amended: in every reachable batch state, pid and exit
status are both absent before the spawn (and stay absent if the spawn
fails); after the spawn completes the pid is present while the exit
status is still absent until the process exits; in the Completed state
both are present; and the decoded stdout/stderr are set exactly in the
Completed state. -/
theorem C7_lifecycle (specs : List UnitSpec) (sched : List Ev) (i : Nat) (u : UnitState)
    (hu : (runBatch specs sched).units.get? i = some u) :
    ((u.phase = Phase.created ∨ u.phase = Phase.started ∨ u.phase = Phase.failed) →
      u.c.pid = Except.ok none ∧ u.c.return_code = Except.ok none) ∧
    (u.phase = Phase.running →
      (∃ p, u.c.pid = Except.ok (some p)) ∧ u.c.return_code = Except.ok none) ∧
    (u.phase = Phase.done →
      (∃ p, u.c.pid = Except.ok (some p)) ∧
      (∃ rc, u.c.return_code = Except.ok (some rc)) ∧
      u.c.stdout.isSome = true ∧ u.c.stderr.isSome = true) ∧
    ((u.c.stdout.isSome = true ∨ u.c.stderr.isSome = true) → u.phase = Phase.done) := by
  have hinv := (runBatch_inv specs sched).2.2 i u hu
  obtain ⟨ic, is, ir, ifl, id⟩ := hinv
  refine ⟨?_, ?_, ?_, ?_⟩
  · intro hph
    have hpr : u.c.process = none := by
      rcases hph with hph | hph | hph
      · exact (ic hph).1
      · exact (is hph).1
      · exact (ifl hph).1
    simp [Command.pid, Command.return_code, hpr]
  · intro hph
    obtain ⟨⟨p, hp, hrc⟩, _⟩ := ir hph
    refine ⟨⟨p.pid, ?_⟩, ?_⟩
    · simp [Command.pid, hp]
    · simp [Command.return_code, hp, hrc]
  · intro hph
    obtain ⟨⟨p, rc, hp, hrc⟩, _, _, hso, hse⟩ := id hph
    refine ⟨⟨p.pid, ?_⟩, ⟨rc, ?_⟩, hso, hse⟩
    · simp [Command.pid, hp]
    · simp [Command.return_code, hp, hrc]
  · intro hsome
    cases hph : u.phase with
    | created =>
      obtain ⟨_, _, _, ho, hr⟩ := ic hph
      rcases hsome with hsome | hsome
      · rw [ho] at hsome; simp at hsome
      · rw [hr] at hsome; simp at hsome
    | started =>
      obtain ⟨_, _, _, ho, hr⟩ := is hph
      rcases hsome with hsome | hsome
      · rw [ho] at hsome; simp at hsome
      · rw [hr] at hsome; simp at hsome
    | running =>
      obtain ⟨_, _, _, ho, hr⟩ := ir hph
      rcases hsome with hsome | hsome
      · rw [ho] at hsome; simp at hsome
      · rw [hr] at hsome; simp at hsome
    | failed =>
      obtain ⟨_, _, ho, hr⟩ := ifl hph
      rcases hsome with hsome | hsome
      · rw [ho] at hsome; simp at hsome
      · rw [hr] at hsome; simp at hsome
    | done => rfl

/-- The state unit 0 of `[specOk]` reaches after one `start` event. -/
def unitS : UnitState :=
  { phase := Phase.started,
    c := { cmd := ['o', 'k'], process := none, stdout := none, stderr := none,
           start_time := some 0, end_time := none } }

theorem C7_lifecycle_witness :
    unitS.c.pid = Except.ok none ∧ unitS.c.return_code = Except.ok none :=
  (C7_lifecycle [specOk] [Ev.start 0] 0 unitS (by decide)).1 (Or.inr (Or.inl rfl))

